import Mathlib

/-
Verification of the repository-condition inspection and synchronization engine
of git-sync-js (src/inspect.ts, src/errors.ts, commitAndSync).  Strings are
modelled as Lean `String` (lists of characters); the git subprocess is
modelled by passing its observable outputs (stdout, stderr, exit codes) as
explicit inputs to the embedded functions.
-/

namespace GitSyncJs

/-! ## SyncStateClassifier: `getSyncState` (src/inspect.ts lines 134-162)

The source runs `git rev-list --count --left-right remote/branch...HEAD` and
classifies its stdout with the unanchored regular expressions `/0\t0/`,
`/0\t\d+/` and `/\d+\t0/`.  An unanchored JavaScript regex test succeeds
exactly when the pattern occurs somewhere in the string, which for these three
patterns means some three consecutive characters match. -/

/-- Does some window of three consecutive characters satisfy `p`?  This is the
meaning of an unanchored three-character regex search. -/
def hasTriple (p : Char → Char → Char → Bool) : List Char → Bool
  | a :: b :: c :: rest => p a b c || hasTriple p (b :: c :: rest)
  | _ => false

/-- Embedding of `getSyncState`'s classification of the rev-list stdout
(src/inspect.ts lines 149-161).  `/0\t0/` is an unanchored search for the
substring "0<TAB>0", `/0\t\d+/` for "0<TAB><digit>", `/\d+\t0/` for
"<digit><TAB>0". -/
def getSyncState (stdout : String) : String :=
  if stdout = "" then "noUpstreamOrBareUpstream"
  else if hasTriple (fun a b c => a = '0' && b = '\t' && c = '0') stdout.data then "equal"
  else if hasTriple (fun a b c => a = '0' && b = '\t' && c.isDigit) stdout.data then "ahead"
  else if hasTriple (fun a b c => a.isDigit && b = '\t' && c = '0') stdout.data then "behind"
  else "diverged"

/-- The stdout `git rev-list --count --left-right` produces for a pair of
counts: left count, a tab, right count, a newline. -/
def revListStdout (left right : Nat) : String :=
  toString left ++ "\t" ++ toString right ++ "\n"

/-! ## `haveLocalChanges` (src/inspect.ts lines 97-102)

The source matches `git status --porcelain` output against
`/^(\?\?|[ACMR] |[ ACMR][DM])*/gm` and returns whether some per-line match is
a non-empty (truthy) string.  With the multiline flag the anchored starred
group produces one match per line; the match is non-empty exactly when the
first two characters of the line match one of the three alternatives. -/

/-- Split a character list at newline characters (the line starts at which the
multiline anchor `^` can match). -/
def splitNl : List Char → List (List Char)
  | [] => [[]]
  | c :: rest =>
    if c = '\n' then [] :: splitNl rest
    else
      match splitNl rest with
      | [] => [[c]]
      | hd :: tl => (c :: hd) :: tl

/-- Do the first two characters of a line match one alternative of
`(\?\?|[ACMR] |[ ACMR][DM])`? -/
def statusLineHead (l : List Char) : Bool :=
  match l with
  | a :: b :: _ =>
    (a = '?' && b = '?') ||
    ((a = 'A' || a = 'C' || a = 'M' || a = 'R') && b = ' ') ||
    ((a = ' ' || a = 'A' || a = 'C' || a = 'M' || a = 'R') && (b = 'D' || b = 'M'))
  | _ => false

/-- The greedy match of `(\?\?|[ACMR] |[ ACMR][DM])*` at the start of a line:
every alternative consumes exactly two characters, so the star keeps consuming
pairs while the next two characters match. -/
def statusStarMatch : List Char → List Char
  | a :: b :: rest =>
    if statusLineHead (a :: b :: rest) then a :: b :: statusStarMatch rest else []
  | _ => []

/-- Embedding of `haveLocalChanges` (src/inspect.ts lines 97-102): some line's
starred match is a non-empty string. -/
def haveLocalChanges (stdout : String) : Bool :=
  (splitNl stdout.data).any (fun l => !(statusStarMatch l).isEmpty)

/-! ## `getGitRepositoryState` (src/inspect.ts lines 178-232)

The six interrupted-operation probes, the bare probe and the dirty probe are
filesystem/subprocess observations; the embedding takes their results as
boolean inputs (the dirty probe is computed from the status stdout through
`haveLocalChanges`, as in the source). -/

/-- The base-variant portion of the repository state string
(src/inspect.ts lines 197-216). -/
def repoStateBase (rebI rebM am mg cp bs : Bool) : String :=
  if rebI then "REBASE-i"
  else if rebM then "REBASE-m"
  else
    (if am then "AM/REBASE" else "") ++
    (if mg then "MERGING" else "") ++
    (if cp then "CHERRY-PICKING" else "") ++
    (if bs then "BISECTING" else "")

/-- Embedding of `getGitRepositoryState` (src/inspect.ts lines 178-232):
`hasGitB` is the `hasGit` probe, the six booleans are the marker probes,
`isBare` the bare-repository probe, and the dirty modifier is recomputed from
the porcelain status stdout via `haveLocalChanges`, as in the source. -/
def getGitRepositoryState (hasGitB rebI rebM am mg cp bs isBare : Bool) (statusStdout : String) : String :=
  if hasGitB = false then "NOGIT"
  else
    repoStateBase rebI rebM am mg cp bs ++
    (if isBare then "|BARE" else "") ++
    (if haveLocalChanges statusStdout then "|DIRTY" else "")

/-- The base variants as described by the specification's precedence rule: the
interactive-rebase marker alone, else the rebase-merge marker alone, else
every detected probe among AM/REBASE, MERGING, CHERRY-PICKING, BISECTING
appended in order. -/
def baseVariantsSpec (rebI rebM am mg cp bs : Bool) : List String :=
  if rebI then ["REBASE-i"]
  else if rebM then ["REBASE-m"]
  else
    (if am then ["AM/REBASE"] else []) ++
    (if mg then ["MERGING"] else []) ++
    (if cp then ["CHERRY-PICKING"] else []) ++
    (if bs then ["BISECTING"] else [])

/-! ## `getRemoteName` (src/inspect.ts lines 288-302) -/

/-- Embedding of `getRemoteName` (src/inspect.ts lines 288-302).  The three
inputs are the stdout of the three `git config --get` calls, in the order the
source queries them: `branch.<branch>.pushRemote`, `remote.pushDefault`,
`branch.<branch>.remote`.  A JavaScript `if (stdout.trim())` takes the branch
exactly when the trimmed string is non-empty. -/
def getRemoteName (pushRemoteOut pushDefaultOut branchRemoteOut : String) : String :=
  if pushRemoteOut.trim ≠ "" then pushRemoteOut.trim
  else if pushDefaultOut.trim ≠ "" then pushDefaultOut.trim
  else if branchRemoteOut.trim ≠ "" then branchRemoteOut.trim
  else "origin"

/-- The first non-blank configuration value, trimmed, with fallback
"origin" — the shape the specification describes. -/
def firstNonBlankConfig : List String → String
  | [] => "origin"
  | s :: rest => if s.trim ≠ "" then s.trim else firstNonBlankConfig rest

/-! ## Helper lemmas -/

theorem statusStarMatch_isEmpty (l : List Char) :
    (statusStarMatch l).isEmpty = !statusLineHead l := by
  match l with
  | [] => rfl
  | [a] => rfl
  | a :: b :: rest =>
    rw [statusStarMatch]
    by_cases h : statusLineHead (a :: b :: rest) = true
    · rw [if_pos h, h]; rfl
    · rw [if_neg h]
      simp only [Bool.not_eq_true] at h
      rw [h]
      rfl

theorem string_ne_empty_length {s : String} (h : s ≠ "") : 0 < s.length := by
  cases s with
  | mk data =>
    cases data with
    | nil => exact absurd rfl h
    | cons c t => simp [String.length]

theorem repoStateBase_eq_join (rebI rebM am mg cp bs : Bool) :
    repoStateBase rebI rebM am mg cp bs = String.join (baseVariantsSpec rebI rebM am mg cp bs) := by
  revert rebI rebM am mg cp bs
  decide

theorem dirty_suffix_aux (rebI rebM am mg cp bs isBare d : Bool) :
    "|DIRTY".data.isSuffixOf
      (repoStateBase rebI rebM am mg cp bs ++ (if isBare then "|BARE" else "") ++
        (if d then "|DIRTY" else "")).data = d := by
  revert rebI rebM am mg cp bs isBare d
  decide

/-! ## Claim theorems -/

/-- C1: the claim states that `getSyncState` classifies every non-negative
pair according to the table of §4.2, in particular left=10, right=0 yields
"behind".  In fact the unanchored `/0\t0/` search finds "0<TAB>0" inside the
rev-list stdout "10<TAB>0", so the code returns "equal" for left=10, right=0,
while it does return "behind" for the single-digit pair left=1, right=0. -/
theorem getSyncState_multidigit_misclassified :
    getSyncState (revListStdout 10 0) = "equal" ∧
    getSyncState (revListStdout 1 0) = "behind" := by
  constructor <;> decide

/-- C6: for every combination of the six marker probes, the repository state
string is the join of the base variants selected by the precedence rule (the
interactive-rebase marker wins, else the rebase-merge marker, else each
detected probe among AM/REBASE, MERGING, CHERRY-PICKING and BISECTING is
appended) followed by the independent bare and dirty modifiers. -/
theorem getGitRepositoryState_base_variants (rebI rebM am mg cp bs isBare : Bool) (stdout : String) :
    getGitRepositoryState true rebI rebM am mg cp bs isBare stdout =
      String.join (baseVariantsSpec rebI rebM am mg cp bs) ++
      (if isBare then "|BARE" else "") ++
      (if haveLocalChanges stdout then "|DIRTY" else "") := by
  rw [getGitRepositoryState, if_neg (by simp), repoStateBase_eq_join]

/-- C8: the state string ends with the dirty modifier exactly when
`haveLocalChanges` holds; `haveLocalChanges` holds exactly when some line of
the porcelain status stdout begins with the untracked/added/copied/modified/
renamed pattern; and in particular a listing containing only an
untracked-file line is detected. -/
theorem getGitRepositoryState_dirty_iff_status_pattern (rebI rebM am mg cp bs isBare : Bool) (stdout : String) :
    ("|DIRTY".data.isSuffixOf (getGitRepositoryState true rebI rebM am mg cp bs isBare stdout).data
      = haveLocalChanges stdout) ∧
    (haveLocalChanges stdout = (splitNl stdout.data).any statusLineHead) ∧
    haveLocalChanges "?? newfile.txt" = true := by
  refine ⟨?_, ?_, by decide⟩
  · rw [getGitRepositoryState, if_neg (by simp)]
    exact dirty_suffix_aux rebI rebM am mg cp bs isBare (haveLocalChanges stdout)
  · rw [haveLocalChanges]
    congr 1
    funext l
    rw [statusStarMatch_isEmpty, Bool.not_not]

/-- C10: `getRemoteName` returns the first non-blank configuration value among
`branch.<branch>.pushRemote`, `remote.pushDefault`, `branch.<branch>.remote`,
trimmed, in that priority order, with fallback "origin", and the result is
never the empty string. -/
theorem getRemoteName_first_nonblank (a b c : String) :
    getRemoteName a b c = firstNonBlankConfig [a, b, c] ∧
    0 < (getRemoteName a b c).length := by
  constructor
  · rw [getRemoteName]
    by_cases ha : a.trim ≠ ""
    · rw [if_pos ha]; rw [firstNonBlankConfig, if_pos ha]
    · rw [if_neg ha, firstNonBlankConfig, if_neg ha]
      by_cases hb : b.trim ≠ ""
      · rw [if_pos hb, firstNonBlankConfig, if_pos hb]
      · rw [if_neg hb, firstNonBlankConfig, if_neg hb]
        by_cases hc : c.trim ≠ ""
        · rw [if_pos hc, firstNonBlankConfig, if_pos hc]
        · rw [if_neg hc, firstNonBlankConfig, if_neg hc]; rfl
  · rw [getRemoteName]
    by_cases ha : a.trim ≠ ""
    · rw [if_pos ha]; exact string_ne_empty_length ha
    · rw [if_neg ha]
      by_cases hb : b.trim ≠ ""
      · rw [if_pos hb]; exact string_ne_empty_length hb
      · rw [if_neg hb]
        by_cases hc : c.trim ≠ ""
        · rw [if_pos hc]; exact string_ne_empty_length hc
        · rw [if_neg hc]; decide

/-! ## ReconciliationOrchestrator: `commitAndSync`

The orchestrator (commitAndSync in the index module) is embedded as a pure
function from its options and from the observable behaviour of the git
subprocess (a `GitEnv`) to the sequence of external operations it performs
(the trace) together with its outcome.  The conflict-resolution helper
`continueRebase` lives in src/sync.ts, which is not present under src/; per
§4.3/§7 of the spec it may throw an unresolvable-conflict fault after its
retry bound, modelled here by the `continueRebaseThrows` input. -/

/-- One external operation performed by `commitAndSync`, in source order. -/
inductive GitAct
  | readDefaultBranch
  | inspectState
  | checkChanges
  | commit
  | credOn
  | fetch
  | push
  | merge
  | rebase
  | continueRebaseStep
  | credOff
  | finalCheck
deriving DecidableEq

/-- The faults `commitAndSync` can raise (src/errors.ts).  `gitPullPushFault`
carries the truncated access token of the session configuration and the
captured stderr; `autoFixFailed` is the unresolvable-conflict fault thrown by
the conflict-resolution helper (E-6). -/
inductive SyncFault
  | syncParameterMissing (parameterName : String)
  | cantSyncGitNotInitialized
  | assumeSyncFault (state : String)
  | gitPullPushFault (truncatedAccessToken : String) (stderr : String)
  | autoFixFailed
deriving DecidableEq

inductive SyncResult
  | ok
  | fault (f : SyncFault)
deriving DecidableEq

/-- Classification of the faults from their messages in src/errors.ts: E-1
(assume-sync) and E-6 (auto-fix failed) say "this is caused by procedural bug
in the git-sync-js", i.e. they are internal-invariant faults, not user-input
faults; E-2 (missing parameter) and E-4 (not a repository) blame the caller's
input, and E-3 reports the failed git interaction to the caller. -/
def isUserInputFault : SyncFault → Bool
  | .syncParameterMissing _ => true
  | .cantSyncGitNotInitialized => true
  | .assumeSyncFault _ => false
  | .gitPullPushFault _ _ => true
  | .autoFixFailed => false

/-- The caller-supplied parameters checked at the top of `commitAndSync`;
`none` models a JavaScript `undefined`. -/
structure SyncOptions where
  accessToken : Option String
  remoteUrl : Option String
deriving DecidableEq

/-- The observable behaviour of the git subprocess during one run: each field
is the output the corresponding invocation would produce. -/
structure GitEnv where
  repoStartingState : String
  localChanges : Bool
  revListAfterFetch : String
  pushExitCode : Int
  pushStderr : String
  mergeExitCode : Int
  mergeStderr : String
  rebaseExitCode : Int
  rebaseStderr : String
  repoStateAfterRebase : String
  revListAfterRebase : String
  continueRebaseThrows : Bool
  revListFinal : String
deriving DecidableEq

/-- lodash `truncate(s, \x7b length: 24 \x7d)`: a string longer than 24
characters is cut to 21 characters plus the three-character omission mark. -/
def lodashTruncate (s : String) : String :=
  if s.length ≤ 24 then s else ⟨s.data.take 21 ++ ['.', '.', '.']⟩

/-- Embedding of the final verification (commitAndSync lines 149-164): on a
zero last exit code, `assumeSync` re-classifies and succeeds only on "equal",
raising the E-1 fault otherwise; on a non-zero exit code the E-3 fault is
raised with the truncated token and the captured stderr. -/
def verifyStep (exitCode : Int) (stderrLast : String) (accessToken : String) (revListFinal : String) : SyncResult :=
  if exitCode = 0 then
    if getSyncState revListFinal = "equal" then .ok
    else .fault (.assumeSyncFault (getSyncState revListFinal))
  else .fault (.gitPullPushFault (lodashTruncate accessToken) stderrLast)

/-- The common tail of every fall-through path of the switch: de-authenticate,
then verify (the final check is a git invocation only on the zero-exit path). -/
def finishRun (tr : List GitAct) (exitCode : Int) (stderrLast : String) (tok : String) (env : GitEnv) : List GitAct × SyncResult :=
  (tr ++ [GitAct.credOff] ++ (if exitCode = 0 then [GitAct.finalCheck] else []),
   verifyStep exitCode stderrLast tok env.revListFinal)

/-- Embedding of the body of the `switch (await getSyncState(...))` of
commitAndSync (lines 95-147) and everything after it, over the scrutinee
string `s`.  The source's case labels are the string literals it compares
against, including the label "noUpstream" even though `getSyncState` never
produces that string. -/
def switchOnState (s : String) (tok : String) (env : GitEnv) (tr : List GitAct) : List GitAct × SyncResult :=
  if s = "equal" then (tr ++ [GitAct.credOff], .ok)
  else if s = "noUpstream" then
    if env.pushExitCode = 0 then finishRun (tr ++ [GitAct.push]) 0 env.pushStderr tok env
    else (tr ++ [GitAct.push], .fault .cantSyncGitNotInitialized)
  else if s = "ahead" then
    finishRun (tr ++ [GitAct.push]) env.pushExitCode env.pushStderr tok env
  else if s = "behind" then
    finishRun (tr ++ [GitAct.merge]) env.mergeExitCode env.mergeStderr tok env
  else if s = "diverged" then
    if env.rebaseExitCode = 0 ∧ env.repoStateAfterRebase = "" ∧
        getSyncState env.revListAfterRebase = "ahead" then
      finishRun (tr ++ [GitAct.rebase, GitAct.push]) env.rebaseExitCode env.rebaseStderr tok env
    else if env.continueRebaseThrows then
      (tr ++ [GitAct.rebase, GitAct.continueRebaseStep], .fault .autoFixFailed)
    else
      finishRun (tr ++ [GitAct.rebase, GitAct.continueRebaseStep, GitAct.push])
        env.rebaseExitCode env.rebaseStderr tok env
  else finishRun tr 0 "" tok env

/-- The switch of `commitAndSync`, dispatching on the classification of the
post-fetch rev-list output. -/
def commitAndSyncSwitch (tok : String) (env : GitEnv) (tr : List GitAct) : List GitAct × SyncResult :=
  switchOnState (getSyncState env.revListAfterFetch) tok env tr

/-- The part of `commitAndSync` after the preflight: check for local changes
(committing when there are any, a commit failure being only logged), embed the
credential, fetch, and dispatch on the classification. -/
def commitAndSyncMain (tok : String) (env : GitEnv) (tr : List GitAct) : List GitAct × SyncResult :=
  commitAndSyncSwitch tok env
    (tr ++ [GitAct.checkChanges] ++ (if env.localChanges then [GitAct.commit] else []) ++
      [GitAct.credOn, GitAct.fetch])

/-- Embedding of `commitAndSync` (the index module, lines 12-165): parameter
checks, preflight repository-state inspection, then the main path. -/
def commitAndSync (o : SyncOptions) (env : GitEnv) : List GitAct × SyncResult :=
  if o.accessToken = none ∨ o.accessToken = some "" then
    ([], .fault (.syncParameterMissing "accessToken"))
  else if o.remoteUrl = none ∨ o.remoteUrl = some "" then
    ([], .fault (.syncParameterMissing "remoteUrl"))
  else
    let tok := (o.accessToken).getD ""
    let tr0 := [GitAct.readDefaultBranch, GitAct.inspectState]
    if env.repoStartingState = "" ∨ env.repoStartingState = "|DIRTY" then
      commitAndSyncMain tok env tr0
    else if env.repoStartingState = "NOGIT" then
      (tr0, .fault .cantSyncGitNotInitialized)
    else if env.continueRebaseThrows then
      (tr0 ++ [GitAct.continueRebaseStep], .fault .autoFixFailed)
    else commitAndSyncMain tok env (tr0 ++ [GitAct.continueRebaseStep])

theorem getSyncState_ne_noUpstream (stdout : String) : getSyncState stdout ≠ "noUpstream" := by
  unfold getSyncState
  split_ifs <;> decide

theorem switchOnState_credOff (s tok : String) (env : GitEnv) (tr : List GitAct)
    (hs : s ≠ "noUpstream") (hth : env.continueRebaseThrows = false) :
    GitAct.credOff ∈ (switchOnState s tok env tr).1 := by
  unfold switchOnState
  by_cases hE : s = "equal"
  · rw [if_pos hE]; simp
  · rw [if_neg hE, if_neg hs]
    by_cases hA : s = "ahead"
    · rw [if_pos hA]; simp [finishRun]
    · rw [if_neg hA]
      by_cases hB : s = "behind"
      · rw [if_pos hB]; simp [finishRun]
      · rw [if_neg hB]
        by_cases hD : s = "diverged"
        · rw [if_pos hD]
          by_cases hr : env.rebaseExitCode = 0 ∧ env.repoStateAfterRebase = "" ∧
              getSyncState env.revListAfterRebase = "ahead"
          · rw [if_pos hr]; simp [finishRun]
          · rw [if_neg hr, if_neg (by simp [hth])]
            simp [finishRun]
        · rw [if_neg hD]; simp [finishRun]

theorem commitAndSyncSwitch_credOff (tok : String) (env : GitEnv) (tr : List GitAct)
    (hth : env.continueRebaseThrows = false) :
    GitAct.credOff ∈ (commitAndSyncSwitch tok env tr).1 :=
  switchOnState_credOff _ tok env tr (getSyncState_ne_noUpstream _) hth

theorem commitAndSyncMain_credOff (tok : String) (env : GitEnv) (tr : List GitAct)
    (hth : env.continueRebaseThrows = false) :
    GitAct.credOff ∈ (commitAndSyncMain tok env tr).1 :=
  commitAndSyncSwitch_credOff tok env _ hth

/-- C2 counterexample: a run in which the credential has been embedded but the
unresolvable-conflict fault of the conflict-resolution helper (diverged case,
failed rebase) escapes before the de-authentication step, so `credentialOff`
is not on this exit path. -/
theorem commitAndSync_credentialOff_skipped :
    GitAct.credOn ∈ (commitAndSync ⟨some "token", some "https://github.com/u/r"⟩
      ⟨"", false, "1\t1\n", 0, "", 0, "", 1, "conflict", "REBASE-i", "1\t1\n", true, ""⟩).1 ∧
    GitAct.credOff ∉ (commitAndSync ⟨some "token", some "https://github.com/u/r"⟩
      ⟨"", false, "1\t1\n", 0, "", 0, "", 1, "conflict", "REBASE-i", "1\t1\n", true, ""⟩).1 := by
  constructor <;> decide

/-- C2 (amended): on every run in which the conflict-resolution helper does
not throw, once the credential has been embedded the de-authentication step is
executed: every such exit path of `commitAndSync` — the "equal" early return,
the fall-through verification paths, and both fault paths of the verification
— contains `credentialOff` after `credentialOn`. -/
theorem commitAndSync_credentialOff_when_helper_returns (o : SyncOptions) (env : GitEnv)
    (hth : env.continueRebaseThrows = false)
    (hon : GitAct.credOn ∈ (commitAndSync o env).1) :
    GitAct.credOff ∈ (commitAndSync o env).1 := by
  unfold commitAndSync at hon ⊢
  split_ifs at hon ⊢ with h1 h2 h3 h4 h5
  · exact absurd hon (by decide)
  · exact absurd hon (by decide)
  · exact commitAndSyncMain_credOff _ env _ hth
  · exact absurd hon (by decide)
  · rw [hth] at h5; exact absurd h5 (by decide)
  · exact commitAndSyncMain_credOff _ env _ hth

/-- C2 witness: a concrete non-throwing run embeds and then strips the
credential. -/
theorem commitAndSync_credentialOff_when_helper_returns_witness :
    GitAct.credOff ∈ (commitAndSync ⟨some "token", some "https://github.com/u/r"⟩
      ⟨"", false, "0\t0\n", 0, "", 0, "", 0, "", "", "", false, "0\t0\n"⟩).1 :=
  commitAndSync_credentialOff_when_helper_returns _ _ rfl (by decide)

/-- C3: on a run whose classification after fetch is
"noUpstreamOrBareUpstream", `commitAndSync` performs no push at all — the
switch's case label is the literal "noUpstream", which `getSyncState` never
returns, so the default branch runs and the run ends in the E-1 assume-sync
fault instead of creating the remote branch (or raising the not-initialized
fault when the push fails, as the claim states). -/
theorem commitAndSync_noUpstreamOrBare_skips_push :
    getSyncState "" = "noUpstreamOrBareUpstream" ∧
    GitAct.push ∉ (commitAndSync ⟨some "token", some "https://github.com/u/r"⟩
      ⟨"", false, "", 1, "no upstream", 0, "", 0, "", "", "", false, ""⟩).1 ∧
    (commitAndSync ⟨some "token", some "https://github.com/u/r"⟩
      ⟨"", false, "", 1, "no upstream", 0, "", 0, "", "", "", false, ""⟩).2 =
      .fault (.assumeSyncFault "noUpstreamOrBareUpstream") := by
  refine ⟨by decide, by decide, by decide⟩

theorem lodashTruncate_le (s : String) : (lodashTruncate s).length ≤ 24 := by
  unfold lodashTruncate
  split_ifs with h
  · exact h
  · simp only [String.length, List.length_append, List.length_take, List.length_cons,
      List.length_nil]
    omega

/-- C4: at the final verification, a zero last exit code succeeds exactly when
the re-classified state is "equal" and otherwise raises the assume-sync fault
(an internal-invariant fault, not a user-input one); a non-zero exit code
raises the pull-push fault carrying the access token truncated to at most 24
characters together with the captured stderr. -/
theorem verifyStep_final_verification (ec : Int) (st tok rl : String) :
    (ec = 0 →
      (verifyStep ec st tok rl = .ok ↔ getSyncState rl = "equal") ∧
      (getSyncState rl ≠ "equal" →
        verifyStep ec st tok rl = .fault (.assumeSyncFault (getSyncState rl)) ∧
        isUserInputFault (.assumeSyncFault (getSyncState rl)) = false)) ∧
    (ec ≠ 0 →
      verifyStep ec st tok rl = .fault (.gitPullPushFault (lodashTruncate tok) st) ∧
      (lodashTruncate tok).length ≤ 24) := by
  constructor
  · intro h0
    unfold verifyStep
    rw [if_pos h0]
    by_cases he : getSyncState rl = "equal"
    · rw [if_pos he]
      exact ⟨⟨fun _ => he, fun _ => rfl⟩, fun hne => absurd he hne⟩
    · rw [if_neg he]
      exact ⟨⟨fun h => SyncResult.noConfusion h, fun h => absurd h he⟩,
        fun _ => ⟨rfl, rfl⟩⟩
  · intro hne
    unfold verifyStep
    rw [if_neg hne]
    exact ⟨rfl, lodashTruncate_le tok⟩

/-- C4 witness: the non-zero-exit conjunct at a concrete input. -/
theorem verifyStep_final_verification_witness :
    verifyStep 1 "boom" "tok" "0\t0\n" = .fault (.gitPullPushFault (lodashTruncate "tok") "boom") ∧
    (lodashTruncate "tok").length ≤ 24 :=
  (verifyStep_final_verification 1 "boom" "tok" "0\t0\n").2 (by decide)

/-- C9: a missing (undefined or empty) access token raises the
missing-parameter fault naming "accessToken", and with a token present a
missing remote URL raises it naming "remoteUrl"; in both cases the trace is
empty — no git operation has run, so the repository is untouched.  The fault
is a user-input fault. -/
theorem commitAndSync_missing_parameter (o : SyncOptions) (env : GitEnv) :
    ((o.accessToken = none ∨ o.accessToken = some "") →
      commitAndSync o env = ([], .fault (.syncParameterMissing "accessToken")) ∧
      isUserInputFault (.syncParameterMissing "accessToken") = true) ∧
    (¬(o.accessToken = none ∨ o.accessToken = some "") →
      (o.remoteUrl = none ∨ o.remoteUrl = some "") →
      commitAndSync o env = ([], .fault (.syncParameterMissing "remoteUrl"))) := by
  constructor
  · intro h
    refine ⟨?_, rfl⟩
    unfold commitAndSync
    rw [if_pos h]
  · intro h1 h2
    unfold commitAndSync
    rw [if_neg h1, if_pos h2]

/-- C9 witness: an undefined access token at a concrete run. -/
theorem commitAndSync_missing_parameter_witness :
    commitAndSync ⟨none, some "https://github.com/u/r"⟩
        ⟨"", false, "", 0, "", 0, "", 0, "", "", "", false, ""⟩ =
      ([], .fault (.syncParameterMissing "accessToken")) ∧
    isUserInputFault (.syncParameterMissing "accessToken") = true :=
  (commitAndSync_missing_parameter ⟨none, some "https://github.com/u/r"⟩
    ⟨"", false, "", 0, "", 0, "", 0, "", "", "", false, ""⟩).1 (Or.inl rfl)

/-! ## CredentialManager (spec-modelled)

src/credential.ts is not present under src/ — only its test,
test/credential.test.ts, is — so the URL transformations are modelled from §6
of the spec ("CredentialManager"). -/

/-- The eight characters of the HTTPS scheme marker. -/
def httpsMarker : List Char := ['h', 't', 't', 'p', 's', ':', '/', '/']

/-- Modelled from the spec: the CredentialManager's embed operation, named
`getGitUrlWithCredential` in the test's imports, "sets the named remote's URL
to an equivalent HTTPS URL with username:token@ inserted after the scheme,
preserving any existing path suffix verbatim" (§6); only defined for HTTPS
remote URLs, whose eight-character scheme marker the userinfo follows. -/
def getGitUrlWithCredential (url userName token : String) : String :=
  ⟨httpsMarker ++ userName.data ++ ':' :: (token.data ++ '@' :: url.data.drop 8)⟩

/-- Does the character list contain an at-sign? -/
def hasAtSign : List Char → Bool
  | [] => false
  | c :: rest => c = '@' || hasAtSign rest

/-- Everything strictly after the first at-sign. -/
def dropThroughAtSign : List Char → List Char
  | [] => []
  | c :: rest => if c = '@' then rest else dropThroughAtSign rest

/-- Modelled from the spec: the CredentialManager's strip operation "restores
the original credential-free URL" (§6) by removing the inserted userinfo — the
segment between the scheme marker and the at-sign — keeping everything after
it verbatim; a URL carrying no credential is left unchanged. -/
def getGitUrlWithOutCredential (url : String) : String :=
  if hasAtSign (url.data.drop 8) then ⟨httpsMarker ++ dropThroughAtSign (url.data.drop 8)⟩
  else url

theorem hasAtSign_of_append (pre rest : List Char) :
    hasAtSign (pre ++ '@' :: rest) = true := by
  induction pre with
  | nil => simp [hasAtSign]
  | cons c t ih => simp [hasAtSign, ih]

theorem dropThroughAtSign_append (pre rest : List Char) (h : ∀ c ∈ pre, c ≠ '@') :
    dropThroughAtSign (pre ++ '@' :: rest) = rest := by
  induction pre with
  | nil => simp [dropThroughAtSign]
  | cons c t ih =>
    have hc : c ≠ '@' := h c (List.mem_cons_self c t)
    rw [List.cons_append, dropThroughAtSign, if_neg hc]
    exact ih fun x hx => h x (List.mem_cons_of_mem c hx)

/-- C5: embedding the credential into an HTTPS remote URL and then stripping
it restores the original URL byte-for-byte — in particular a trailing ".git"
suffix, being part of the preserved remainder, is kept or absent exactly as in
the original — provided the username and token themselves contain no at-sign. -/
theorem credential_roundtrip (rest : List Char) (userName token : String)
    (hu : ∀ c ∈ userName.data, c ≠ '@') (ht : ∀ c ∈ token.data, c ≠ '@') :
    getGitUrlWithOutCredential
        (getGitUrlWithCredential ⟨httpsMarker ++ rest⟩ userName token) =
      ⟨httpsMarker ++ rest⟩ := by
  have hdata : (getGitUrlWithCredential ⟨httpsMarker ++ rest⟩ userName token).data
      = httpsMarker ++ ((userName.data ++ ':' :: token.data) ++ '@' :: rest) := by
    show httpsMarker ++ userName.data ++ ':' :: (token.data ++ '@' :: (httpsMarker ++ rest).drop 8)
        = httpsMarker ++ ((userName.data ++ ':' :: token.data) ++ '@' :: rest)
    rw [List.drop_left' (by rfl)]
    simp
  have hpre : ∀ c ∈ userName.data ++ ':' :: token.data, c ≠ '@' := by
    intro c hc
    rcases List.mem_append.mp hc with h | h
    · exact hu c h
    · rcases List.mem_cons.mp h with h | h
      · subst h; decide
      · exact ht c h
  unfold getGitUrlWithOutCredential
  rw [hdata, List.drop_left' (by rfl), if_pos (hasAtSign_of_append _ rest),
    dropThroughAtSign_append _ rest hpre]

/-- C5 witness: round trips at a concrete URL with the ".git" suffix and at
one without it. -/
theorem credential_roundtrip_witness :
    getGitUrlWithOutCredential
        (getGitUrlWithCredential ⟨httpsMarker ++ "github.com/user/repo.git".data⟩ "u1" "tok123") =
      ⟨httpsMarker ++ "github.com/user/repo.git".data⟩ ∧
    getGitUrlWithOutCredential
        (getGitUrlWithCredential ⟨httpsMarker ++ "github.com/user/repo".data⟩ "u1" "tok123") =
      ⟨httpsMarker ++ "github.com/user/repo".data⟩ :=
  ⟨credential_roundtrip "github.com/user/repo.git".data "u1" "tok123" (by decide) (by decide),
   credential_roundtrip "github.com/user/repo".data "u1" "tok123" (by decide) (by decide)⟩

/-! ## getModifiedFileList: decoding of octal-escaped status paths
(src/inspect.ts lines 12-13 and 24-60)

Strings are handled at the character-list level.  The git subprocess quotes a
path containing non-ASCII bytes and escapes each such byte as a backslash and
three octal digits; the source turns every such escape into a percent-hex
escape (`gitEscapeToEncodedUri`) and hands the result to
`decodeURIComponent`, whose escape scanning and strict UTF-8 decoding are
embedded below (`pctTokenize`, `decodePctToks`); a URIError is `none`. -/

def isOctDigitCh (c : Char) : Bool := '0' ≤ c && c ≤ '7'

def octValCh (c : Char) : Nat := c.toNat - '0'.toNat

/-- JavaScript `Number.parseInt(s, 8)` on a three-digit string: the longest
leading run of octal digits is parsed; no leading octal digit gives NaN
(`none`).  The regex class `\d` admits '8' and '9', at which `parseInt`
stops. -/
def jsParseOct3 (a b c : Char) : Option Nat :=
  if isOctDigitCh a then
    if isOctDigitCh b then
      if isOctDigitCh c then some (octValCh a * 64 + octValCh b * 8 + octValCh c)
      else some (octValCh a * 8 + octValCh b)
    else some (octValCh a)
  else none

/-- JavaScript `n.toString(16)` for the values reachable here (below 4096),
with NaN printing as "NaN". -/
def jsHex : Option Nat → List Char
  | none => ['N', 'a', 'N']
  | some n =>
    if n < 16 then [Nat.digitChar n]
    else if n < 256 then [Nat.digitChar (n / 16), Nat.digitChar (n % 16)]
    else [Nat.digitChar (n / 256), Nat.digitChar (n / 16 % 16), Nat.digitChar (n % 16)]

/-- Embedding of `gitEscapeToEncodedUri` (src/inspect.ts line 12): scanning
left to right, every backslash followed by three decimal digits is replaced by
'%' and the hexadecimal form of the octal value of the digits. -/
def gitEscapeToEncodedUri : List Char → List Char
  | [] => []
  | c :: rest =>
    if c = '\\' then
      match _hr : rest with
      | d1 :: d2 :: d3 :: rest2 =>
        if d1.isDigit && d2.isDigit && d3.isDigit then
          '%' :: (jsHex (jsParseOct3 d1 d2 d3) ++ gitEscapeToEncodedUri rest2)
        else c :: gitEscapeToEncodedUri rest
      | _ => c :: gitEscapeToEncodedUri rest
    else c :: gitEscapeToEncodedUri rest
termination_by l => l.length
decreasing_by all_goals (simp_all [List.length_cons]; try omega)

/-- A token of `decodeURIComponent`'s scan: a literal character or a
percent-escaped byte. -/
inductive PTok
  | ch (c : Char)
  | byte (b : Nat)
deriving DecidableEq

/-- The value of one hexadecimal digit character (codes 48-57 are the decimal
digits, 97-102 the lowercase and 65-70 the uppercase letters). -/
def hexValCh (c : Char) : Option Nat :=
  let n := c.toNat
  if 48 ≤ n ∧ n ≤ 57 then some (n - 48)
  else if 97 ≤ n ∧ n ≤ 102 then some (n - 87)
  else if 65 ≤ n ∧ n ≤ 70 then some (n - 55)
  else none

/-- The escape scanner of `decodeURIComponent`: a '%' must be followed by two
hexadecimal digits and contributes a byte; every other character contributes
itself; a malformed escape is a URIError. -/
def pctTokenize : List Char → Option (List PTok)
  | [] => some []
  | c :: rest =>
    if c = '%' then
      match rest with
      | h1 :: h2 :: rest2 =>
        match hexValCh h1, hexValCh h2 with
        | some a, some b => (pctTokenize rest2).map (PTok.byte (16 * a + b) :: ·)
        | _, _ => none
      | _ => none
    else (pctTokenize rest).map (PTok.ch c :: ·)

/-- The scalar value of a two-byte UTF-8 sequence. -/
def utf8Val2 (b b1 : Nat) : Nat := (b - 192) * 64 + (b1 - 128)

/-- The scalar value of a three-byte UTF-8 sequence. -/
def utf8Val3 (b b1 b2 : Nat) : Nat := (b - 224) * 4096 + (b1 - 128) * 64 + (b2 - 128)

/-- The scalar value of a four-byte UTF-8 sequence. -/
def utf8Val4 (b b1 b2 b3 : Nat) : Nat :=
  (b - 240) * 262144 + (b1 - 128) * 4096 + (b2 - 128) * 64 + (b3 - 128)

/-- One group of the UTF-8 decoding step of `decodeURIComponent` (ES Decode):
a literal character stands alone, as does a byte below 128; a lead byte fixes
the sequence length, its continuation bytes must lie in 128..191, and the
scalar value must be in range for its length (no overlong forms) and must not
be a surrogate; anything else is a URIError.  Returns the decoded character
and the remaining tokens. -/
def decodeStep : List PTok → Option (Char × List PTok)
  | [] => none
  | PTok.ch c :: ts => some (c, ts)
  | PTok.byte b :: ts =>
    if b < 128 then some (Char.ofNat b, ts)
    else if 194 ≤ b ∧ b ≤ 223 then
      match ts with
      | PTok.byte b1 :: ts2 =>
        if 128 ≤ b1 ∧ b1 ≤ 191 then some (Char.ofNat (utf8Val2 b b1), ts2) else none
      | _ => none
    else if 224 ≤ b ∧ b ≤ 239 then
      match ts with
      | PTok.byte b1 :: PTok.byte b2 :: ts2 =>
        if (128 ≤ b1 ∧ b1 ≤ 191) ∧ (128 ≤ b2 ∧ b2 ≤ 191) then
          if 2048 ≤ utf8Val3 b b1 b2 ∧
              ¬(55296 ≤ utf8Val3 b b1 b2 ∧ utf8Val3 b b1 b2 ≤ 57343) then
            some (Char.ofNat (utf8Val3 b b1 b2), ts2)
          else none
        else none
      | _ => none
    else if 240 ≤ b ∧ b ≤ 244 then
      match ts with
      | PTok.byte b1 :: PTok.byte b2 :: PTok.byte b3 :: ts2 =>
        if (128 ≤ b1 ∧ b1 ≤ 191) ∧ (128 ≤ b2 ∧ b2 ≤ 191) ∧ (128 ≤ b3 ∧ b3 ≤ 191) then
          if 65536 ≤ utf8Val4 b b1 b2 b3 ∧ utf8Val4 b b1 b2 b3 ≤ 1114111 then
            some (Char.ofNat (utf8Val4 b b1 b2 b3), ts2)
          else none
        else none
      | _ => none
    else none

/-- The decoding loop of `decodeURIComponent`, with fuel for termination; the
fuel is immaterial whenever it is at least the token count
(`decodeLoop_fuel`). -/
def decodeLoop : Nat → List PTok → Option (List Char)
  | _, [] => some []
  | 0, _ :: _ => none
  | fuel + 1, t :: ts =>
    match decodeStep (t :: ts) with
    | some (c, ts2) => (decodeLoop fuel ts2).map (c :: ·)
    | none => none

/-- The full UTF-8 decoding of `decodeURIComponent`'s token stream. -/
def decodePctToks (ts : List PTok) : Option (List Char) :=
  decodeLoop ts.length ts

/-- Embedding of `decodeGitEscape` (src/inspect.ts line 13):
`decodeURIComponent(gitEscapeToEncodedUri(raw))`. -/
def decodeGitEscape (raw : List Char) : Option (List Char) :=
  (pctTokenize (gitEscapeToEncodedUri raw)).bind decodePctToks

def headIsQuote : List Char → Bool
  | c :: _ => c = '"'
  | [] => false

/-- The guard of src/inspect.ts lines 50-51: starts and ends with a literal
quote and contains no semicolon and no comma. -/
def isSafeUtf8UnescapedString (raw : List Char) : Bool :=
  headIsQuote raw && headIsQuote raw.reverse && !(raw.any (· = ';')) && !(raw.any (· = ','))

/-- `replace(/^"/, '')`: drop one leading quote when present. -/
def dropLeadQuote : List Char → List Char
  | [] => []
  | c :: rest => if c = '"' then rest else c :: rest

/-- `replace(/"$/, '')`: drop one trailing quote when present. -/
def dropTrailQuote (l : List Char) : List Char := (dropLeadQuote l.reverse).reverse

/-- The per-token transformation of `getModifiedFileList` (src/inspect.ts
lines 50-52): a safely quoted token is decoded by `decodeGitEscape` and then
stripped of its first and last quote; any other token passes through
unchanged. -/
def transformToken (raw : List Char) : Option (List Char) :=
  if isSafeUtf8UnescapedString raw then
    (decodeGitEscape raw).map fun s => dropTrailQuote (dropLeadQuote s)
  else some raw

/-- The `fileRelativePath` column of `getModifiedFileList` (src/inspect.ts
lines 24-60): each status path token is transformed and the results are
sorted with the locale-aware comparator passed to
`localeCompare`-based `sort`; a consistent comparator makes
`Array.prototype.sort` produce the stably sorted permutation, modelled by
`List.mergeSort`; a URIError from a malformed escape propagates. -/
def getModifiedFileList (le : String → String → Bool) (tokens : List String) : Option (List String) :=
  (tokens.mapM fun t => (transformToken t.data).map fun l => (⟨l⟩ : String)).map
    fun l => l.mergeSort le

/-- The UTF-8 encoding of one character. -/
def utf8EncodeChar (c : Char) : List Nat :=
  if c.toNat < 128 then [c.toNat]
  else if c.toNat < 2048 then [192 + c.toNat / 64, 128 + c.toNat % 64]
  else if c.toNat < 65536 then
    [224 + c.toNat / 4096, 128 + c.toNat / 64 % 64, 128 + c.toNat % 64]
  else
    [240 + c.toNat / 262144, 128 + c.toNat / 4096 % 64, 128 + c.toNat / 64 % 64, 128 + c.toNat % 64]

/-- git's octal escape of one byte: a backslash and three octal digits. -/
def gitOctalEscape (b : Nat) : List Char :=
  ['\\', Nat.digitChar (b / 64), Nat.digitChar (b / 8 % 8), Nat.digitChar (b % 8)]

def octalEscapeAll (bs : List Nat) : List Char :=
  bs.foldr (fun b acc => gitOctalEscape b ++ acc) []

/-- How git (core.quotePath) renders one character inside a quoted path: an
ASCII character stands for itself, every byte of a non-ASCII character is
octal-escaped. -/
def gitQuoteChar (c : Char) : List Char :=
  if c.toNat < 128 then [c] else octalEscapeAll (utf8EncodeChar c)

def gitQuotePath (s : List Char) : List Char :=
  s.foldr (fun c acc => gitQuoteChar c ++ acc) []

theorem digitChar_isDigit : ∀ x, x < 10 → (Nat.digitChar x).isDigit = true := by decide

theorem isOctDigitCh_digitChar : ∀ x, x < 8 → isOctDigitCh (Nat.digitChar x) = true := by decide

theorem octValCh_digitChar : ∀ x, x < 8 → octValCh (Nat.digitChar x) = x := by decide

theorem hexValCh_digitChar : ∀ x, x < 16 → hexValCh (Nat.digitChar x) = some x := by decide

theorem jsParseOct3_octal (b : Nat) (h1 : 128 ≤ b) (h2 : b < 256) :
    jsParseOct3 (Nat.digitChar (b / 64)) (Nat.digitChar (b / 8 % 8)) (Nat.digitChar (b % 8)) =
      some b := by
  unfold jsParseOct3
  rw [if_pos (isOctDigitCh_digitChar (b / 64) (by omega)),
    if_pos (isOctDigitCh_digitChar (b / 8 % 8) (by omega)),
    if_pos (isOctDigitCh_digitChar (b % 8) (by omega)),
    octValCh_digitChar (b / 64) (by omega),
    octValCh_digitChar (b / 8 % 8) (by omega),
    octValCh_digitChar (b % 8) (by omega)]
  congr 1
  omega

theorem jsHex_byte (b : Nat) (h1 : 128 ≤ b) (h2 : b < 256) :
    jsHex (some b) = [Nat.digitChar (b / 16), Nat.digitChar (b % 16)] := by
  unfold jsHex
  dsimp only
  rw [if_neg (by omega), if_pos (by omega)]

theorem gitEscapeToEncodedUri_plain (c : Char) (l : List Char) (h : c ≠ '\\') :
    gitEscapeToEncodedUri (c :: l) = c :: gitEscapeToEncodedUri l := by
  match l with
  | d1 :: d2 :: d3 :: rest2 => rw [gitEscapeToEncodedUri.eq_2, if_neg h]
  | [] => rw [gitEscapeToEncodedUri.eq_3 _ _ (fun _ _ _ _ hh => by cases hh), if_neg h]
  | [d1] => rw [gitEscapeToEncodedUri.eq_3 _ _ (fun _ _ _ _ hh => by simp at hh), if_neg h]
  | [d1, d2] => rw [gitEscapeToEncodedUri.eq_3 _ _ (fun _ _ _ _ hh => by simp at hh), if_neg h]

theorem gitEscapeToEncodedUri_escape (b : Nat) (l : List Char) (h1 : 128 ≤ b) (h2 : b < 256) :
    gitEscapeToEncodedUri (gitOctalEscape b ++ l) =
      '%' :: (jsHex (some b) ++ gitEscapeToEncodedUri l) := by
  show gitEscapeToEncodedUri ('\\' :: Nat.digitChar (b / 64) :: Nat.digitChar (b / 8 % 8) ::
      Nat.digitChar (b % 8) :: l) = _
  rw [gitEscapeToEncodedUri.eq_2]
  rw [if_pos rfl]
  have hd : ((Nat.digitChar (b / 64)).isDigit && (Nat.digitChar (b / 8 % 8)).isDigit &&
      (Nat.digitChar (b % 8)).isDigit) = true := by
    rw [digitChar_isDigit (b / 64) (by omega), digitChar_isDigit (b / 8 % 8) (by omega),
      digitChar_isDigit (b % 8) (by omega)]
    rfl
  rw [if_pos hd, jsParseOct3_octal b h1 h2]

theorem pctTokenize_plain (c : Char) (l : List Char) (h : c ≠ '%') :
    pctTokenize (c :: l) = (pctTokenize l).map (PTok.ch c :: ·) := by
  match l with
  | h1 :: h2 :: rest2 => rw [pctTokenize.eq_2, if_neg h]
  | [] => rw [pctTokenize.eq_3 _ _ (fun _ _ _ hh => by cases hh), if_neg h]
  | [h1] => rw [pctTokenize.eq_3 _ _ (fun _ _ _ hh => by simp at hh), if_neg h]

theorem pctTokenize_byte (b : Nat) (l : List Char) (h1 : 128 ≤ b) (h2 : b < 256) :
    pctTokenize ('%' :: Nat.digitChar (b / 16) :: Nat.digitChar (b % 16) :: l) =
      (pctTokenize l).map (PTok.byte b :: ·) := by
  rw [pctTokenize.eq_2]
  rw [if_pos rfl, hexValCh_digitChar (b / 16) (by omega), hexValCh_digitChar (b % 16) (by omega)]
  dsimp only
  have hb : 16 * (b / 16) + b % 16 = b := by omega
  simp only [hb]

theorem char_valid_ranges (c : Char) :
    c.toNat < 55296 ∨ (57343 < c.toNat ∧ c.toNat < 1114112) := c.valid

theorem utf8EncodeChar_range (c : Char) (h : 128 ≤ c.toNat) :
    ∀ b ∈ utf8EncodeChar c, 128 ≤ b ∧ b < 256 := by
  intro b hb
  have hval := char_valid_ranges c
  unfold utf8EncodeChar at hb
  rw [if_neg (by omega)] at hb
  by_cases h2 : c.toNat < 2048
  · rw [if_pos h2] at hb
    simp only [List.mem_cons, List.not_mem_nil, or_false] at hb
    rcases hb with hb | hb <;> omega
  · rw [if_neg h2] at hb
    by_cases h3 : c.toNat < 65536
    · rw [if_pos h3] at hb
      simp only [List.mem_cons, List.not_mem_nil, or_false] at hb
      rcases hb with hb | hb | hb <;> omega
    · rw [if_neg h3] at hb
      simp only [List.mem_cons, List.not_mem_nil, or_false] at hb
      rcases hb with hb | hb | hb | hb <;> omega

theorem decodeStep_length : ∀ (ts : List PTok) (c : Char) (ts2 : List PTok),
    decodeStep ts = some (c, ts2) → ts2.length < ts.length := by
  intro ts c ts2 h
  unfold decodeStep at h
  repeat' split at h
  all_goals simp_all
  all_goals omega

theorem decodeLoop_fuel : ∀ (fuel : Nat) (ts : List PTok), ts.length ≤ fuel →
    decodeLoop fuel ts = decodeLoop ts.length ts := by
  intro fuel
  induction fuel using Nat.strong_induction_on with
  | _ fuel ih =>
    intro ts h
    match fuel, ts with
    | fuel, [] => cases fuel <;> rfl
    | 0, t :: ts => simp at h
    | fuel + 1, t :: ts =>
      show decodeLoop (fuel + 1) (t :: ts) = decodeLoop (t :: ts).length (t :: ts)
      rw [show (t :: ts).length = ts.length + 1 from rfl]
      rw [decodeLoop, decodeLoop]
      cases hs : decodeStep (t :: ts) with
      | none => rfl
      | some p =>
        obtain ⟨c, ts2⟩ := p
        have hl := decodeStep_length (t :: ts) c ts2 hs
        simp only [List.length_cons] at hl h
        dsimp only
        rw [ih fuel (by omega) ts2 (by omega), ih ts.length (by omega) ts2 (by omega)]

theorem decodePctToks_step (t : PTok) (ts : List PTok) (c : Char) (ts2 : List PTok)
    (hs : decodeStep (t :: ts) = some (c, ts2)) :
    decodePctToks (t :: ts) = (decodePctToks ts2).map (c :: ·) := by
  have hl := decodeStep_length (t :: ts) c ts2 hs
  simp only [List.length_cons] at hl
  unfold decodePctToks
  rw [show (t :: ts).length = ts.length + 1 from rfl]
  rw [decodeLoop, hs]
  dsimp only
  rw [decodeLoop_fuel ts.length ts2 (by omega)]

theorem decodePctToks_ch (c : Char) (ts : List PTok) :
    decodePctToks (PTok.ch c :: ts) = (decodePctToks ts).map (c :: ·) :=
  decodePctToks_step _ _ _ _ rfl

theorem decodeStep_utf8_two (c : Char) (hlo : 128 ≤ c.toNat) (hhi : c.toNat < 2048)
    (ts : List PTok) :
    decodeStep ((utf8EncodeChar c).map PTok.byte ++ ts) = some (c, ts) := by
  have henc : utf8EncodeChar c = [192 + c.toNat / 64, 128 + c.toNat % 64] := by
    unfold utf8EncodeChar
    rw [if_neg (by omega), if_pos hhi]
  rw [henc]
  simp only [List.map_cons, List.map_nil, List.cons_append, List.nil_append]
  unfold decodeStep
  dsimp only
  rw [if_neg (by omega), if_pos (by constructor <;> omega)]
  rw [if_pos (by constructor <;> omega)]
  have hv : utf8Val2 (192 + c.toNat / 64) (128 + c.toNat % 64) = c.toNat := by
    unfold utf8Val2
    omega
  rw [hv, Char.ofNat_toNat]

theorem decodeStep_utf8_three (c : Char) (hlo : 2048 ≤ c.toNat) (hhi : c.toNat < 65536)
    (ts : List PTok) :
    decodeStep ((utf8EncodeChar c).map PTok.byte ++ ts) = some (c, ts) := by
  have hval := char_valid_ranges c
  have henc : utf8EncodeChar c =
      [224 + c.toNat / 4096, 128 + c.toNat / 64 % 64, 128 + c.toNat % 64] := by
    unfold utf8EncodeChar
    rw [if_neg (by omega), if_neg (by omega), if_pos hhi]
  rw [henc]
  simp only [List.map_cons, List.map_nil, List.cons_append, List.nil_append]
  unfold decodeStep
  dsimp only
  rw [if_neg (by omega), if_neg (by omega), if_pos (by constructor <;> omega)]
  rw [if_pos (by constructor <;> (constructor <;> omega))]
  have hv : utf8Val3 (224 + c.toNat / 4096) (128 + c.toNat / 64 % 64) (128 + c.toNat % 64)
      = c.toNat := by
    unfold utf8Val3
    omega
  rw [hv]
  rw [if_pos (by constructor <;> omega)]
  rw [Char.ofNat_toNat]

theorem decodeStep_utf8_four (c : Char) (hlo : 65536 ≤ c.toNat) (ts : List PTok) :
    decodeStep ((utf8EncodeChar c).map PTok.byte ++ ts) = some (c, ts) := by
  have hval := char_valid_ranges c
  have henc : utf8EncodeChar c = [240 + c.toNat / 262144, 128 + c.toNat / 4096 % 64,
      128 + c.toNat / 64 % 64, 128 + c.toNat % 64] := by
    unfold utf8EncodeChar
    rw [if_neg (by omega), if_neg (by omega), if_neg (by omega)]
  rw [henc]
  simp only [List.map_cons, List.map_nil, List.cons_append, List.nil_append]
  unfold decodeStep
  dsimp only
  rw [if_neg (by omega), if_neg (by omega), if_neg (by omega),
    if_pos (by constructor <;> omega)]
  rw [if_pos (by refine ⟨⟨?_, ?_⟩, ⟨?_, ?_⟩, ?_, ?_⟩ <;> omega)]
  have hv : utf8Val4 (240 + c.toNat / 262144) (128 + c.toNat / 4096 % 64)
      (128 + c.toNat / 64 % 64) (128 + c.toNat % 64) = c.toNat := by
    unfold utf8Val4
    omega
  rw [hv]
  rw [if_pos (by constructor <;> omega)]
  rw [Char.ofNat_toNat]

theorem decodeStep_utf8 (c : Char) (h : 128 ≤ c.toNat) (ts : List PTok) :
    decodeStep ((utf8EncodeChar c).map PTok.byte ++ ts) = some (c, ts) := by
  by_cases h2 : c.toNat < 2048
  · exact decodeStep_utf8_two c h h2 ts
  · by_cases h3 : c.toNat < 65536
    · exact decodeStep_utf8_three c (by omega) h3 ts
    · exact decodeStep_utf8_four c (by omega) ts

theorem decodePctToks_utf8 (c : Char) (h : 128 ≤ c.toNat) (ts : List PTok) :
    decodePctToks ((utf8EncodeChar c).map PTok.byte ++ ts) =
      (decodePctToks ts).map (c :: ·) := by
  obtain ⟨b0, bs, henc⟩ : ∃ b0 bs, utf8EncodeChar c = b0 :: bs := by
    unfold utf8EncodeChar
    split_ifs <;> exact ⟨_, _, rfl⟩
  have hs := decodeStep_utf8 c h ts
  rw [henc] at hs ⊢
  simp only [List.map_cons, List.cons_append] at hs ⊢
  exact decodePctToks_step _ _ _ _ hs

theorem pctTokenize_octalEscapeAll (bs : List Nat) (l : List Char)
    (hb : ∀ b ∈ bs, 128 ≤ b ∧ b < 256) :
    pctTokenize (gitEscapeToEncodedUri (octalEscapeAll bs ++ l)) =
      (pctTokenize (gitEscapeToEncodedUri l)).map (bs.map PTok.byte ++ ·) := by
  induction bs with
  | nil =>
    rw [show octalEscapeAll ([] : List Nat) ++ l = l from rfl]
    cases pctTokenize (gitEscapeToEncodedUri l) <;> simp
  | cons b bs ih =>
    have hb0 := hb b (List.mem_cons_self b bs)
    have hstep : octalEscapeAll (b :: bs) ++ l = gitOctalEscape b ++ (octalEscapeAll bs ++ l) := by
      show (gitOctalEscape b ++ octalEscapeAll bs) ++ l = _
      rw [List.append_assoc]
    rw [hstep, gitEscapeToEncodedUri_escape b _ hb0.1 hb0.2, jsHex_byte b hb0.1 hb0.2]
    simp only [List.cons_append, List.nil_append]
    rw [pctTokenize_byte b _ hb0.1 hb0.2]
    rw [ih (fun x hx => hb x (List.mem_cons_of_mem b hx))]
    cases pctTokenize (gitEscapeToEncodedUri l) <;> simp

theorem decodeGitEscape_cons (c : Char) (rest : List Char)
    (hc : c.toNat < 128 → c ≠ '\\' ∧ c ≠ '%') :
    decodeGitEscape (gitQuotePath (c :: rest)) =
      (decodeGitEscape (gitQuotePath rest)).map (c :: ·) := by
  by_cases hA : c.toNat < 128
  · obtain ⟨h2, h3⟩ := hc hA
    have hq : gitQuoteChar c = [c] := by
      unfold gitQuoteChar
      rw [if_pos hA]
    show decodeGitEscape (gitQuoteChar c ++ gitQuotePath rest) = _
    rw [hq]
    simp only [List.cons_append, List.nil_append]
    unfold decodeGitEscape
    rw [gitEscapeToEncodedUri_plain c _ h2, pctTokenize_plain c _ h3]
    cases hE : pctTokenize (gitEscapeToEncodedUri (gitQuotePath rest)) with
    | none => rfl
    | some ts =>
      simp only [Option.map_some', Option.some_bind]
      rw [decodePctToks_ch]
  · have hge : 128 ≤ c.toNat := by omega
    have hq : gitQuoteChar c = octalEscapeAll (utf8EncodeChar c) := by
      unfold gitQuoteChar
      rw [if_neg hA]
    show decodeGitEscape (gitQuoteChar c ++ gitQuotePath rest) = _
    rw [hq]
    unfold decodeGitEscape
    rw [pctTokenize_octalEscapeAll _ _ (utf8EncodeChar_range c hge)]
    cases hE : pctTokenize (gitEscapeToEncodedUri (gitQuotePath rest)) with
    | none => rfl
    | some ts =>
      simp only [Option.map_some', Option.some_bind]
      rw [decodePctToks_utf8 c hge ts]

/-- The decode pipeline of src/inspect.ts lines 12-13 inverts git's octal
escaping: for a path whose ASCII characters are not backslashes or percent
signs, escaping the UTF-8 bytes of every non-ASCII character and then running
`decodeGitEscape` returns exactly the original path. -/
theorem decodeGitEscape_gitQuotePath (cs : List Char)
    (h : ∀ c ∈ cs, c.toNat < 128 → c ≠ '\\' ∧ c ≠ '%') :
    decodeGitEscape (gitQuotePath cs) = some cs := by
  induction cs with
  | nil =>
    unfold decodeGitEscape
    rw [show gitQuotePath [] = [] from rfl]
    rw [gitEscapeToEncodedUri, pctTokenize]
    rfl
  | cons c rest ih =>
    rw [decodeGitEscape_cons c rest (h c (List.mem_cons_self c rest))]
    rw [ih (fun x hx hlt => h x (List.mem_cons_of_mem c hx) hlt)]
    rfl

theorem octalEscapeAll_chars (bs : List Nat) (hb : ∀ b ∈ bs, b < 256) :
    ∀ x ∈ octalEscapeAll bs, x = '\\' ∨ x.isDigit = true := by
  induction bs with
  | nil => intro x hx; cases hx
  | cons b bs ih =>
    intro x hx
    have hb0 := hb b (List.mem_cons_self b bs)
    rw [show octalEscapeAll (b :: bs) = gitOctalEscape b ++ octalEscapeAll bs from rfl] at hx
    rcases List.mem_append.mp hx with hx | hx
    · simp only [gitOctalEscape, List.mem_cons, List.not_mem_nil, or_false] at hx
      rcases hx with rfl | rfl | rfl | rfl
      · exact Or.inl rfl
      · exact Or.inr (digitChar_isDigit _ (by omega))
      · exact Or.inr (digitChar_isDigit _ (by omega))
      · exact Or.inr (digitChar_isDigit _ (by omega))
    · exact ih (fun y hy => hb y (List.mem_cons_of_mem b hy)) x hx

theorem gitQuotePath_chars (cs : List Char) :
    ∀ x ∈ gitQuotePath cs, x ∈ cs ∨ x = '\\' ∨ x.isDigit = true := by
  induction cs with
  | nil => intro x hx; cases hx
  | cons c rest ih =>
    intro x hx
    rw [show gitQuotePath (c :: rest) = gitQuoteChar c ++ gitQuotePath rest from rfl] at hx
    rcases List.mem_append.mp hx with hx | hx
    · unfold gitQuoteChar at hx
      by_cases hA : c.toNat < 128
      · rw [if_pos hA] at hx
        simp only [List.mem_cons, List.not_mem_nil, or_false] at hx
        subst hx
        exact Or.inl (List.mem_cons_self _ _)
      · rw [if_neg hA] at hx
        have hr := utf8EncodeChar_range c (by omega)
        rcases octalEscapeAll_chars (utf8EncodeChar c) (fun b hb => (hr b hb).2) x hx with h | h
        · exact Or.inr (Or.inl h)
        · exact Or.inr (Or.inr h)
    · rcases ih x hx with h | h
      · exact Or.inl (List.mem_cons_of_mem c h)
      · exact Or.inr h

theorem isSafe_of_quoted (cs : List Char) (h : ∀ c ∈ cs, c ≠ ';' ∧ c ≠ ',') :
    isSafeUtf8UnescapedString ('"' :: gitQuotePath cs ++ ['"']) = true := by
  have hmem : ∀ x ∈ ('"' :: gitQuotePath cs ++ ['"']), x ≠ ';' ∧ x ≠ ',' := by
    intro x hx
    simp only [List.mem_cons, List.mem_append, List.mem_singleton,
      List.not_mem_nil, or_false] at hx
    rcases hx with (rfl | hx) | rfl
    · exact ⟨by decide, by decide⟩
    · rcases gitQuotePath_chars cs x hx with hm | hm | hm
      · exact h x hm
      · subst hm
        exact ⟨by decide, by decide⟩
      · exact ⟨fun he => absurd (he ▸ hm) (by decide), fun he => absurd (he ▸ hm) (by decide)⟩
    · exact ⟨by decide, by decide⟩
  have h1 : ('"' :: gitQuotePath cs ++ ['"']).any (· = ';') = false := by
    rw [List.any_eq_false]
    intro x hx
    simpa using (hmem x hx).1
  have h2 : ('"' :: gitQuotePath cs ++ ['"']).any (· = ',') = false := by
    rw [List.any_eq_false]
    intro x hx
    simpa using (hmem x hx).2
  have hrev : ('"' :: gitQuotePath cs ++ ['"']).reverse =
      '"' :: ((gitQuotePath cs).reverse ++ ['"']) := by
    simp
  have hh2 : headIsQuote (('"' :: gitQuotePath cs ++ ['"']).reverse) = true := by
    rw [hrev]
    rfl
  unfold isSafeUtf8UnescapedString
  rw [hh2, h1, h2]
  rfl

theorem dropLeadQuote_quote (l : List Char) : dropLeadQuote ('"' :: l) = l := by
  rw [dropLeadQuote]
  rw [if_pos rfl]

theorem dropTrailQuote_append (l : List Char) : dropTrailQuote (l ++ ['"']) = l := by
  unfold dropTrailQuote
  rw [List.reverse_append]
  simp only [List.reverse_cons, List.reverse_nil, List.nil_append, List.cons_append]
  rw [dropLeadQuote_quote]
  exact List.reverse_reverse l

theorem gitQuotePath_append (l1 l2 : List Char) :
    gitQuotePath (l1 ++ l2) = gitQuotePath l1 ++ gitQuotePath l2 := by
  induction l1 with
  | nil => rfl
  | cons c t ih =>
    show gitQuoteChar c ++ gitQuotePath (t ++ l2) = (gitQuoteChar c ++ gitQuotePath t) ++ _
    rw [ih, List.append_assoc]

/-- C7: the per-token transformation of `getModifiedFileList` decodes a quoted
octal-escaped path token back to the exact original path — every
backslash-three-octal-digits group becomes a percent-hex byte and the
resulting byte runs are decoded as UTF-8 — while any token that is not safely
quoted passes through unchanged, and the returned listing is sorted by the
locale-aware comparator (for any transitive and total comparator). -/
theorem getModifiedFileList_decode_and_sort (cs : List Char)
    (hcs : ∀ c ∈ cs, (c.toNat < 128 ∧ c ≠ '\\' ∧ c ≠ '%' ∧ c ≠ ',' ∧ c ≠ ';') ∨ 128 ≤ c.toNat)
    (raw : List Char) (hraw : isSafeUtf8UnescapedString raw = false)
    (le : String → String → Bool)
    (htrans : ∀ a b c, le a b = true → le b c = true → le a c = true)
    (htotal : ∀ a b, (le a b || le b a) = true)
    (tokens out : List String) (hout : getModifiedFileList le tokens = some out) :
    transformToken ('"' :: gitQuotePath cs ++ ['"']) = some cs ∧
    transformToken raw = some raw ∧
    out.Pairwise (fun a b => le a b = true) := by
  refine ⟨?_, ?_, ?_⟩
  · have hnosemi : ∀ c ∈ cs, c ≠ ';' ∧ c ≠ ',' := by
      intro c hc
      rcases hcs c hc with ⟨_, _, _, h4, h5⟩ | hge
      · exact ⟨h5, h4⟩
      · constructor <;> (intro he; rw [he] at hge; exact absurd hge (by decide))
    have hgood : ∀ c ∈ ('"' :: cs ++ ['"']), c.toNat < 128 → c ≠ '\\' ∧ c ≠ '%' := by
      intro c hc hlt
      simp only [List.mem_cons, List.mem_append, List.mem_singleton,
        List.not_mem_nil, or_false] at hc
      rcases hc with (rfl | hc) | rfl
      · exact ⟨by decide, by decide⟩
      · rcases hcs c hc with ⟨_, h2, h3, _, _⟩ | hge
        · exact ⟨h2, h3⟩
        · omega
      · exact ⟨by decide, by decide⟩
    unfold transformToken
    rw [if_pos (isSafe_of_quoted cs hnosemi)]
    have hq1 : gitQuotePath ('"' :: cs) = '"' :: gitQuotePath cs := by
      show gitQuoteChar '"' ++ gitQuotePath cs = _
      rw [show gitQuoteChar '"' = ['"'] from by decide]
      rfl
    have htok : ('"' :: gitQuotePath cs ++ ['"']) = gitQuotePath ('"' :: cs ++ ['"']) := by
      rw [gitQuotePath_append, hq1, show gitQuotePath ['"'] = ['"'] from by decide]
    rw [htok, decodeGitEscape_gitQuotePath _ hgood]
    simp only [Option.map_some']
    rw [List.cons_append, dropLeadQuote_quote, dropTrailQuote_append]
  · unfold transformToken
    rw [if_neg (by simp [hraw])]
  · unfold getModifiedFileList at hout
    rcases Option.map_eq_some'.mp hout with ⟨l, -, rfl⟩
    exact List.sorted_mergeSort htrans htotal l

/-- C7 witness: the quoted-token conjunct at a path containing the CJK
character U+65B0, whose three escaped UTF-8 bytes decode back to it. -/
theorem getModifiedFileList_decode_and_sort_witness :
    transformToken ('"' :: gitQuotePath ['a', Char.ofNat 26032, 'b'] ++ ['"']) =
      some ['a', Char.ofNat 26032, 'b'] :=
  (getModifiedFileList_decode_and_sort ['a', Char.ofNat 26032, 'b'] (by decide)
    "plain.txt".data (by decide) (fun _ _ => true) (fun _ _ _ _ _ => rfl)
    (fun _ _ => rfl) [] [] (by simp [getModifiedFileList]; exact ⟨[], rfl, by simp⟩)).1

end GitSyncJs
